import Mathlib

/-!
Shallow embedding of the `logdb` package (src/logdb/logdb.go): the log-indexing
store of a blockchain node.  Pure data is translated to Lean structures, the
SQLite-backed store becomes an explicit `StoreState`, and the SQL statements
built by string concatenation in `FilterEvents` / `FilterTransfers` / `Commit`
are translated to predicates and state transformers following the SQL
semantics of the exact text the builders emit (operator precedence included).
I/O failure of individual statements inside the commit transaction is made
explicit through a failure oracle (`CommitStep → Bool`); cancellation of a
filter scan through a per-row oracle (`Nat → Bool`).
-/

namespace Logdb

/-! ### Bytes, hashes, addresses -/

/-- A 32-byte value (`thor.Bytes32`): a list of byte values of length 32. -/
abbrev Bytes32 := {l : List Nat // l.length = 32}

/-- A 20-byte account address (`thor.Address`). -/
abbrev Address := {l : List Nat // l.length = 20}

/-- Fuel-driven big-endian digit expansion; `fuel` only needs to dominate the
number being expanded (structural recursion keeps the definition computable by
`rfl` and `decide`). -/
def natToBEAux : Nat → Nat → List Nat
  | 0, _ => []
  | _ + 1, 0 => []
  | fuel + 1, n + 1 => natToBEAux fuel ((n + 1) / 256) ++ [(n + 1) % 256]

/-- Big-endian minimal byte encoding of a non-negative integer, as produced by
`big.Int.Bytes()` (used for the transfer amount column). -/
def natToBE (n : Nat) : List Nat := natToBEAux n n

/-- Decoding of a big-endian byte string into a non-negative integer, as done
by `big.Int.SetBytes` on the scanned amount column. -/
def beToNat (l : List Nat) : Nat :=
  l.foldl (fun acc b => acc * 256 + b) 0

/-- `binary.BigEndian.PutUint32`: the fixed-width 4-byte big-endian encoding
used for the last-indexed-block marker (logdb.go lines 364-366). -/
def beBytes4 (n : Nat) : List Nat :=
  [n / 16777216 % 256, n / 65536 % 256, n / 256 % 256, n % 256]

/-- `binary.BigEndian.Uint32` applied to the stored marker value
(logdb.go line 325). -/
def beUint32 (l : List Nat) : Nat :=
  l.getD 0 0 * 16777216 + l.getD 1 0 * 65536 + l.getD 2 0 * 256 + l.getD 3 0

/-- Modelled from the spec: `thor.BytesToBytes32` of the `thor` package (not
under src/) reconstructs a 32-byte hash from a scanned column; a shorter input
is left-padded with zero bytes, a longer one keeps its last 32 bytes.  The
spec's decode contract only needs that a stored 32-byte value comes back
byte-for-byte. -/
def bytesToBytes32 (l : List Nat) : Bytes32 :=
  if h : l.length ≤ 32 then
    ⟨List.replicate (32 - l.length) 0 ++ l, by simp; omega⟩
  else
    ⟨l.drop (l.length - 32), by simp; omega⟩

/-- Modelled from the spec: `thor.BytesToAddress` of the `thor` package (not
under src/), the 20-byte analogue of `bytesToBytes32`. -/
def bytesToAddress (l : List Nat) : Address :=
  if h : l.length ≤ 20 then
    ⟨List.replicate (20 - l.length) 0 ++ l, by simp; omega⟩
  else
    ⟨l.drop (l.length - 20), by simp; omega⟩

/-! ### Record model: decoded records and stored rows -/

/-- A contract event record (`logdb.Event`, the struct scanned by
`queryEvents`).  The Go `Topics [5]*thor.Bytes32` array is flattened into five
optional slots. -/
structure Event where
  blockNumber : Nat
  index : Nat
  blockID : Bytes32
  blockTime : Nat
  txID : Bytes32
  txOrigin : Address
  clauseIndex : Nat
  address : Address
  topic0 : Option Bytes32
  topic1 : Option Bytes32
  topic2 : Option Bytes32
  topic3 : Option Bytes32
  topic4 : Option Bytes32
  data : List Nat
  deriving DecidableEq

/-- A value-transfer record (`logdb.Transfer`).  The arbitrary-precision
non-negative `big.Int` amount is a `Nat`. -/
structure Transfer where
  blockNumber : Nat
  index : Nat
  blockID : Bytes32
  blockTime : Nat
  txID : Bytes32
  txOrigin : Address
  clauseIndex : Nat
  sender : Address
  recipient : Address
  amount : Nat
  deriving DecidableEq

/-- A row of the `event` table, with every column in its stored (encoded)
form.  A topic column holding `[]` models SQL NULL (the `topicValue` encoding
of a nil topic); `queryEvents` decodes a topic back only when its byte string
is non-empty. -/
structure EventRow where
  blockNumber : Nat
  eventIndex : Nat
  blockID : List Nat
  blockTime : Nat
  txID : List Nat
  txOrigin : List Nat
  clauseIndex : Nat
  address : List Nat
  topic0 : List Nat
  topic1 : List Nat
  topic2 : List Nat
  topic3 : List Nat
  topic4 : List Nat
  data : List Nat
  deriving DecidableEq

/-- A row of the `transfer` table in stored form. -/
structure TransferRow where
  blockNumber : Nat
  transferIndex : Nat
  blockID : List Nat
  blockTime : Nat
  txID : List Nat
  txOrigin : List Nat
  clauseIndex : Nat
  sender : List Nat
  recipient : List Nat
  amount : List Nat
  deriving DecidableEq

/-- The observable state of the SQLite store: the two record tables in rowid
order plus the single `config` row keyed `blockNum` (`none` when the marker
has never been written). -/
structure StoreState where
  events : List EventRow
  transfers : List TransferRow
  config : Option (List Nat)
  deriving DecidableEq

/-- `topicValue` (logdb.go lines 328-333): a nil topic is stored as NULL
(modelled by `[]`), a present topic as its 32 bytes. -/
def topicValue : Option Bytes32 → List Nat
  | none => []
  | some t => t.val

/-- The event INSERT of `Commit` (logdb.go lines 374-388): each field in its
stored column form. -/
def encodeEvent (e : Event) : EventRow :=
  { blockNumber := e.blockNumber
    eventIndex := e.index
    blockID := e.blockID.val
    blockTime := e.blockTime
    txID := e.txID.val
    txOrigin := e.txOrigin.val
    clauseIndex := e.clauseIndex
    address := e.address.val
    topic0 := topicValue e.topic0
    topic1 := topicValue e.topic1
    topic2 := topicValue e.topic2
    topic3 := topicValue e.topic3
    topic4 := topicValue e.topic4
    data := e.data }

/-- The transfer INSERT of `Commit` (logdb.go lines 394-408). -/
def encodeTransfer (t : Transfer) : TransferRow :=
  { blockNumber := t.blockNumber
    transferIndex := t.index
    blockID := t.blockID.val
    blockTime := t.blockTime
    txID := t.txID.val
    txOrigin := t.txOrigin.val
    clauseIndex := t.clauseIndex
    sender := t.sender.val
    recipient := t.recipient.val
    amount := natToBE t.amount }

/-- The topic decoding of `queryEvents` (logdb.go lines 243-248): a topic is
reconstructed only when the scanned bytes are non-empty. -/
def decodeTopic (l : List Nat) : Option Bytes32 :=
  if 0 < l.length then some (bytesToBytes32 l) else none

/-- The row scan of `queryEvents` (logdb.go lines 202-249). -/
def decodeEventRow (r : EventRow) : Event :=
  { blockNumber := r.blockNumber
    index := r.eventIndex
    blockID := bytesToBytes32 r.blockID
    blockTime := r.blockTime
    txID := bytesToBytes32 r.txID
    txOrigin := bytesToAddress r.txOrigin
    clauseIndex := r.clauseIndex
    address := bytesToAddress r.address
    topic0 := decodeTopic r.topic0
    topic1 := decodeTopic r.topic1
    topic2 := decodeTopic r.topic2
    topic3 := decodeTopic r.topic3
    topic4 := decodeTopic r.topic4
    data := r.data }

/-- The row scan of `queryTransfers` (logdb.go lines 270-307). -/
def decodeTransferRow (r : TransferRow) : Transfer :=
  { blockNumber := r.blockNumber
    index := r.transferIndex
    blockID := bytesToBytes32 r.blockID
    blockTime := r.blockTime
    txID := bytesToBytes32 r.txID
    txOrigin := bytesToAddress r.txOrigin
    clauseIndex := r.clauseIndex
    sender := bytesToAddress r.sender
    recipient := bytesToAddress r.recipient
    amount := beToNat r.amount }

/-! ### Filter model -/

/-- The range unit (`logdb.Block` / `logdb.Time`); the filter types live in a
file of the package not under src/, but every field is fixed by its use in
logdb.go. -/
inductive RangeUnit
  | Block
  | Time
  deriving DecidableEq

/-- `logdb.Range`: `rfrom`/`rto` stand for the Go fields `From`/`To`
(Lean keywords). -/
structure FilterRange where
  unit : RangeUnit
  rfrom : Nat
  rto : Nat
  deriving DecidableEq

/-- `logdb.Order` (`ASC` / `DESC`); logdb.go only compares it with `DESC`. -/
inductive OrderKind
  | ASC
  | DESC
  deriving DecidableEq

/-- `logdb.Options`: pagination `{Offset, Limit}`. -/
structure FilterOptions where
  offset : Nat
  limit : Nat
  deriving DecidableEq

/-- One event criteria group: optional address plus the five optional topic
slot constraints (`criteria.Address`, `criteria.Topics` in logdb.go
lines 101-110). -/
structure EventCriteria where
  address : Option Address
  topic0 : Option Bytes32
  topic1 : Option Bytes32
  topic2 : Option Bytes32
  topic3 : Option Bytes32
  topic4 : Option Bytes32
  deriving DecidableEq

/-- `logdb.EventFilter`. -/
structure EventFilter where
  range : Option FilterRange
  criteriaSet : List EventCriteria
  order : OrderKind
  options : Option FilterOptions
  deriving DecidableEq

/-- One transfer criteria group (logdb.go lines 157-168). -/
structure TransferCriteria where
  txOrigin : Option Address
  sender : Option Address
  recipient : Option Address
  deriving DecidableEq

/-- `logdb.TransferFilter`; `txID` is the extra equality constraint of
logdb.go lines 145-148. -/
structure TransferFilter where
  range : Option FilterRange
  txID : Option Bytes32
  criteriaSet : List TransferCriteria
  order : OrderKind
  options : Option FilterOptions
  deriving DecidableEq

/-- The range conjuncts emitted at logdb.go lines 84-94 / 134-144:
`col >= from`, and additionally `col <= to` only when `To >= From`; the
column is `blockTime` for unit `Time`, `blockNumber` otherwise. -/
def rangeCond (rg : Option FilterRange) (blockNumber blockTime : Nat) : Bool :=
  match rg with
  | none => true
  | some rg =>
    let v := match rg.unit with
      | RangeUnit.Time => blockTime
      | RangeUnit.Block => blockNumber
    decide (rg.rfrom ≤ v) &&
      (if rg.rfrom ≤ rg.rto then decide (v ≤ rg.rto) else true)

/-- An optional equality constraint `col = ?` bound to the `.Bytes()` of a
fixed-width value: absent constrains nothing. -/
def optEq {n : Nat} (c : Option {l : List Nat // l.length = n})
    (v : List Nat) : Bool :=
  match c with
  | none => true
  | some c => decide (v = c.val)

/-- One event criteria group `( 1 AND address = ? AND topicj = ? ... )`
(logdb.go lines 95-111): only non-nil fields constrain. -/
def eventGroupCond (c : EventCriteria) (r : EventRow) : Bool :=
  optEq c.address r.address &&
  optEq c.topic0 r.topic0 &&
  optEq c.topic1 r.topic1 &&
  optEq c.topic2 r.topic2 &&
  optEq c.topic3 r.topic3 &&
  optEq c.topic4 r.topic4

/-- The WHERE condition `FilterEvents` builds (logdb.go lines 82-112).  The
builder emits the text
`1 [AND col >= ? [AND col <= ?]] AND ( 1 G1 ) OR ( 1 G2 ) OR ... OR ( 1 Gn )`.
SQL gives AND higher precedence than OR, so this text parses as
`(1 AND range AND G1) OR G2 OR ... OR Gn`: the range conjuncts bind only to
the FIRST criteria group; with no criteria group the condition is just the
range conjuncts. -/
def eventWhere (f : EventFilter) (r : EventRow) : Bool :=
  match f.criteriaSet with
  | [] => rangeCond f.range r.blockNumber r.blockTime
  | g :: gs =>
    (rangeCond f.range r.blockNumber r.blockTime && eventGroupCond g r) ||
      gs.any (fun g => eventGroupCond g r)

/-- One transfer criteria group `( 1 AND txOrigin = ? AND sender = ? AND
recipient = ? )` (logdb.go lines 151-174). -/
def transferGroupCond (c : TransferCriteria) (r : TransferRow) : Bool :=
  optEq c.txOrigin r.txOrigin &&
  optEq c.sender r.sender &&
  optEq c.recipient r.recipient

/-- The WHERE condition `FilterTransfers` builds (logdb.go lines 132-175).
The builder emits
`1 AND range AND txID = ? AND (( 1 G1 ) OR ( 1 G2 ) OR ... OR ( 1 Gn ))`:
unlike the event path, the doubled parentheses around the group list make the
whole disjunction a single operand of the outer AND chain, so range, txID and
the group disjunction are properly conjoined. -/
def transferWhere (f : TransferFilter) (r : TransferRow) : Bool :=
  rangeCond f.range r.blockNumber r.blockTime &&
  optEq f.txID r.txID &&
  (f.criteriaSet.isEmpty || f.criteriaSet.any (fun g => transferGroupCond g r))

/-! ### ORDER BY and LIMIT -/

/-- Lexicographic comparison of (block number, sequence index) keys. -/
def lexLE (p q : Nat × Nat) : Bool :=
  decide (p.1 < q.1) || (decide (p.1 = q.1) && decide (p.2 ≤ q.2))

/-- The ordering relation of `ORDER BY blockNumber, index` in the requested
direction (logdb.go lines 114-118 / 176-180). -/
def keyOrder {α : Type} (key : α → Nat × Nat) (desc : Bool) (a b : α) : Prop :=
  (cond desc (lexLE (key b) (key a)) (lexLE (key a) (key b))) = true

instance {α : Type} (key : α → Nat × Nat) (desc : Bool) :
    DecidableRel (keyOrder key desc) := by
  intro a b
  unfold keyOrder
  infer_instance

instance keyOrderTotal {α : Type} (key : α → Nat × Nat) (desc : Bool) :
    IsTotal α (keyOrder key desc) := by
  constructor
  intro a b
  cases desc <;> simp [keyOrder, lexLE] <;> omega

instance keyOrderTrans {α : Type} (key : α → Nat × Nat) (desc : Bool) :
    IsTrans α (keyOrder key desc) := by
  constructor
  intro a b c
  cases desc <;> simp [keyOrder, lexLE] <;> omega

/-- The sort key of the `event` table. -/
def eventRowKey (r : EventRow) : Nat × Nat := (r.blockNumber, r.eventIndex)

/-- The sort key of the `transfer` table. -/
def transferRowKey (r : TransferRow) : Nat × Nat :=
  (r.blockNumber, r.transferIndex)

/-- `limit offset, limit` (logdb.go lines 120-123 / 181-184): skip `offset`
rows of the ordered result, return at most `limit`. -/
def paginate {α : Type} (opts : Option FilterOptions) (l : List α) : List α :=
  match opts with
  | none => l
  | some o => (l.drop o.offset).take o.limit

/-- The rows the SELECT built by `FilterEvents` returns, in order: WHERE
filter, ORDER BY (blockNumber, eventIndex) in the requested direction, then
LIMIT. -/
def selectEventRows (f : EventFilter) (s : StoreState) : List EventRow :=
  paginate f.options
    (List.insertionSort (keyOrder eventRowKey (decide (f.order = OrderKind.DESC)))
      (s.events.filter (fun r => eventWhere f r)))

/-- The rows the SELECT built by `FilterTransfers` returns, in order. -/
def selectTransferRows (f : TransferFilter) (s : StoreState) : List TransferRow :=
  paginate f.options
    (List.insertionSort (keyOrder transferRowKey (decide (f.order = OrderKind.DESC)))
      (s.transfers.filter (fun r => transferWhere f r)))

/-! ### Row scan with cancellation -/

/-- The error taxonomy visible in logdb.go: a storage failure of the backing
statement, or the context's cancellation error (`ctx.Err()`), which is a
distinct value. -/
inductive LogErr
  | storage
  | cancelled
  deriving DecidableEq

/-- The row loop of `queryEvents` / `queryTransfers` (logdb.go lines 196-250 /
264-309): before decoding the i-th row it polls the cancellation signal
(`select ctx.Done()`); a fired signal aborts the scan with the cancellation
error and no records. -/
def scanRows {Row Rec : Type} (decode : Row → Rec) (cancelled : Nat → Bool) :
    Nat → List Row → Except LogErr (List Rec)
  | _, [] => Except.ok []
  | i, r :: rest =>
    if cancelled i then Except.error LogErr.cancelled
    else
      match scanRows decode cancelled (i + 1) rest with
      | Except.ok recs => Except.ok (decode r :: recs)
      | Except.error e => Except.error e

/-- `queryEvents` (logdb.go lines 188-255): `QueryContext` itself refuses an
already-fired context (modelled by the leading check at instant 0), then the
row loop runs with a per-row cancellation check. -/
def queryEvents (cancelled : Nat → Bool) (rows : List EventRow) :
    Except LogErr (List Event) :=
  if cancelled 0 then Except.error LogErr.cancelled
  else scanRows decodeEventRow cancelled 0 rows

/-- `queryTransfers` (logdb.go lines 257-314). -/
def queryTransfers (cancelled : Nat → Bool) (rows : List TransferRow) :
    Except LogErr (List Transfer) :=
  if cancelled 0 then Except.error LogErr.cancelled
  else scanRows decodeTransferRow cancelled 0 rows

/-- A context that never fires. -/
def noCancel : Nat → Bool := fun _ => false

/-- `LogDB.FilterEvents` (logdb.go lines 77-125): a nil filter selects the
whole table in native (rowid) order; otherwise the built SELECT is executed. -/
def FilterEvents (cancelled : Nat → Bool) (filter : Option EventFilter)
    (s : StoreState) : Except LogErr (List Event) :=
  match filter with
  | none => queryEvents cancelled s.events
  | some f => queryEvents cancelled (selectEventRows f s)

/-- `LogDB.FilterTransfers` (logdb.go lines 127-186). -/
def FilterTransfers (cancelled : Nat → Bool) (filter : Option TransferFilter)
    (s : StoreState) : Except LogErr (List Transfer) :=
  match filter with
  | none => queryTransfers cancelled s.transfers
  | some f => queryTransfers cancelled (selectTransferRows f s)

/-- `LogDB.QueryLastBlockNumber` (logdb.go lines 316-326): 0 when the marker
row is absent, else the big-endian decode of its 4-byte value. -/
def QueryLastBlockNumber (s : StoreState) : Nat :=
  match s.config with
  | none => 0
  | some data => beUint32 data

/-! ### Block batch and Commit -/

/-- The header fields a batch reads: `Number()`, `ID()`, `Timestamp()`
(the `block` package is not under src/; these are the three accessors
logdb.go and the record-stamping use). -/
structure Header where
  number : Nat
  id : Bytes32
  timestamp : Nat
  deriving DecidableEq

/-- `logdb.BlockBatch` (logdb.go lines 335-340), minus the db handle: the
bound header and the accumulated, already stamped records. -/
structure BlockBatch where
  header : Header
  events : List Event
  transfers : List Transfer
  deriving DecidableEq

/-- `LogDB.Prepare` (logdb.go lines 70-75): a fresh batch bound to a header,
no I/O. -/
def Prepare (h : Header) : BlockBatch :=
  { header := h, events := [], transfers := [] }

/-- The statements `Commit` executes inside its transaction, each of which the
backing store may fail: the two truncating DELETEs, the marker upsert, and the
i-th event / transfer INSERT. -/
inductive CommitStep
  | truncEvents
  | truncTransfers
  | marker
  | insertEvent (i : Nat)
  | insertTransfer (i : Nat)
  deriving DecidableEq

/-- An execution environment in which no statement fails. -/
def noFail : CommitStep → Bool := fun _ => false

/-- `DELETE from event where blockNumber >= ?` (logdb.go line 358): the rows
below the batch height survive. -/
def truncateEvents (h : Nat) (s : StoreState) : StoreState :=
  { s with events := s.events.filter (fun r => decide (r.blockNumber < h)) }

/-- `DELETE from transfer where blockNumber >= ?` (logdb.go line 361). -/
def truncateTransfers (h : Nat) (s : StoreState) : StoreState :=
  { s with transfers := s.transfers.filter (fun r => decide (r.blockNumber < h)) }

/-- `INSERT OR REPLACE INTO config(key, value)` (logdb.go lines 367-370): the
marker row is set to the 4-byte big-endian batch height. -/
def setMarker (h : Nat) (s : StoreState) : StoreState :=
  { s with config := some (beBytes4 h) }

/-- `INSERT OR REPLACE INTO event ...` (logdb.go line 374).  Modelled from the
spec for the key: the table schema (not under src/) keys rows by
(block number, sequence index), so REPLACE drops any row with the same key and
the new row takes a fresh rowid at the end. -/
def insertOrReplaceEvent (e : Event) (l : List EventRow) : List EventRow :=
  l.filter (fun r => !decide (r.blockNumber = e.blockNumber ∧ r.eventIndex = e.index))
    ++ [encodeEvent e]

/-- `INSERT OR REPLACE INTO transfer ...` (logdb.go line 395), keyed by
(block number, sequence index) as for events. -/
def insertOrReplaceTransfer (t : Transfer) (l : List TransferRow) : List TransferRow :=
  l.filter (fun r => !decide (r.blockNumber = t.blockNumber ∧ r.transferIndex = t.index))
    ++ [encodeTransfer t]

/-- The event insertion loop of `Commit` (logdb.go lines 373-392): the i-th
INSERT either fails — aborting the whole procedure — or replaces-and-appends
its row. -/
def insertEventsFrom (fails : CommitStep → Bool) :
    Nat → List Event → List EventRow → Except LogErr (List EventRow)
  | _, [], l => Except.ok l
  | i, e :: rest, l =>
    if fails (CommitStep.insertEvent i) then Except.error LogErr.storage
    else insertEventsFrom fails (i + 1) rest (insertOrReplaceEvent e l)

/-- The transfer insertion loop of `Commit` (logdb.go lines 394-409). -/
def insertTransfersFrom (fails : CommitStep → Bool) :
    Nat → List Transfer → List TransferRow → Except LogErr (List TransferRow)
  | _, [], l => Except.ok l
  | i, t :: rest, l =>
    if fails (CommitStep.insertTransfer i) then Except.error LogErr.storage
    else insertTransfersFrom fails (i + 1) rest (insertOrReplaceTransfer t l)

/-- The body of the transaction `Commit` runs (logdb.go lines 355-411).  For a
height above genesis it truncates both tables and upserts the marker — the
marker statement's error is IGNORED by the source (line 367 discards
`tx.Exec`'s result), so a failed marker upsert does not abort the commit, it
merely leaves the marker unwritten; at height 0 the whole block is skipped.
Then every accumulated event and transfer is inserted, any failure aborting. -/
def commitProc (fails : CommitStep → Bool) (bb : BlockBatch) (s : StoreState) :
    Except LogErr StoreState :=
  let step1 : Except LogErr StoreState :=
    if 0 < bb.header.number then
      if fails CommitStep.truncEvents then Except.error LogErr.storage
      else
        let sA := truncateEvents bb.header.number s
        if fails CommitStep.truncTransfers then Except.error LogErr.storage
        else
          let sB := truncateTransfers bb.header.number sA
          Except.ok (if fails CommitStep.marker then sB else setMarker bb.header.number sB)
    else Except.ok s
  match step1 with
  | Except.error e => Except.error e
  | Except.ok s1 =>
    match insertEventsFrom fails 0 bb.events s1.events with
    | Except.error e => Except.error e
    | Except.ok evs =>
      match insertTransfersFrom fails 0 bb.transfers s1.transfers with
      | Except.error e => Except.error e
      | Except.ok trs => Except.ok { s1 with events := evs, transfers := trs }

/-- `BlockBatch.execInTx` (logdb.go lines 342-352): run the procedure inside a
transaction; on error the transaction is rolled back, so the observable store
state is unchanged.  The pair is (Go error return, observable store state). -/
def execInTx (s : StoreState) (proc : StoreState → Except LogErr StoreState) :
    Option LogErr × StoreState :=
  match proc s with
  | Except.ok s1 => (none, s1)
  | Except.error e => (some e, s)

/-- `BlockBatch.Commit` (logdb.go lines 354-412). -/
def BlockBatch.Commit (fails : CommitStep → Bool) (bb : BlockBatch)
    (s : StoreState) : Option LogErr × StoreState :=
  execInTx s (commitProc fails bb)

/-! ### Record accumulation (ForTransaction / Insert) -/

/-- The payload of one raw contract event (`tx.Event` of the `tx` package, not
under src/): emitting address, up to five topics, data — modelled from the
spec's record model with the topics flattened like `Event`'s. -/
structure TxEvent where
  address : Address
  topic0 : Option Bytes32
  topic1 : Option Bytes32
  topic2 : Option Bytes32
  topic3 : Option Bytes32
  topic4 : Option Bytes32
  data : List Nat
  deriving DecidableEq

/-- The payload of one raw value transfer (`tx.Transfer`): sender, recipient,
non-negative amount. -/
structure TxTransfer where
  sender : Address
  recipient : Address
  amount : Nat
  deriving DecidableEq

/-- Modelled from the spec: `newEvent` (in a file of the package not under
src/) stamps a raw event with the owning block's header fields, the bound
transaction id/origin, the clause index and the assigned sequence index. -/
def newEvent (h : Header) (index : Nat) (txID : Bytes32) (txOrigin : Address)
    (clauseIndex : Nat) (ev : TxEvent) : Event :=
  { blockNumber := h.number
    index := index
    blockID := h.id
    blockTime := h.timestamp
    txID := txID
    txOrigin := txOrigin
    clauseIndex := clauseIndex
    address := ev.address
    topic0 := ev.topic0
    topic1 := ev.topic1
    topic2 := ev.topic2
    topic3 := ev.topic3
    topic4 := ev.topic4
    data := ev.data }

/-- Modelled from the spec: `newTransfer`, the transfer analogue of
`newEvent`. -/
def newTransfer (h : Header) (index : Nat) (txID : Bytes32) (txOrigin : Address)
    (clauseIndex : Nat) (tr : TxTransfer) : Transfer :=
  { blockNumber := h.number
    index := index
    blockID := h.id
    blockTime := h.timestamp
    txID := txID
    txOrigin := txOrigin
    clauseIndex := clauseIndex
    sender := tr.sender
    recipient := tr.recipient
    amount := tr.amount }

/-- The `Insert` closure returned by `BlockBatch.ForTransaction` (logdb.go
lines 414-430): each appended record's sequence index is the accumulator's
current length, so events and transfers are numbered independently in global
append order. -/
def BlockBatch.insert (bb : BlockBatch) (txID : Bytes32) (txOrigin : Address)
    (events : List TxEvent) (transfers : List TxTransfer)
    (clauseIndex : Nat) : BlockBatch :=
  let bb1 := events.foldl
    (fun b ev =>
      { b with events :=
          b.events ++ [newEvent b.header b.events.length txID txOrigin clauseIndex ev] })
    bb
  transfers.foldl
    (fun b tr =>
      { b with transfers :=
          b.transfers ++ [newTransfer b.header b.transfers.length txID txOrigin clauseIndex tr] })
    bb1

/-- One caller-side `ForTransaction(txID, txOrigin).Insert(events, transfers,
clauseIndex)` call. -/
structure InsertCall where
  txID : Bytes32
  txOrigin : Address
  events : List TxEvent
  transfers : List TxTransfer
  clauseIndex : Nat
  deriving DecidableEq

/-- A batch as actually constructed by the write boundary: `Prepare` followed
by a sequence of per-transaction `Insert` calls. -/
def buildBatch (h : Header) (calls : List InsertCall) : BlockBatch :=
  calls.foldl
    (fun b c => b.insert c.txID c.txOrigin c.events c.transfers c.clauseIndex)
    (Prepare h)

/-! ### Concrete values used by witnesses and counterexamples -/

/-- The 32-byte value with every byte `x`. -/
def b32 (x : Nat) : Bytes32 := ⟨List.replicate 32 x, by simp⟩

/-- The 20-byte address with every byte `x`. -/
def addr (x : Nat) : Address := ⟨List.replicate 20 x, by simp⟩

/-- A header at height 1. -/
def hdr1 : Header := ⟨1, b32 9, 100⟩

/-- A genesis header. -/
def hdr0 : Header := ⟨0, b32 9, 90⟩

/-- A stored event row at block height 5, emitted by address `addr 2`, all
topics NULL. -/
def sampleEventRow : EventRow :=
  ⟨5, 0, (b32 7).val, 50, (b32 8).val, (addr 3).val, 0, (addr 2).val,
    [], [], [], [], [], [1, 2]⟩

/-- A stored transfer row at block height 5, sender `addr 2`. -/
def sampleTransferRow : TransferRow :=
  ⟨5, 0, (b32 7).val, 50, (b32 8).val, (addr 3).val, 0, (addr 2).val,
    (addr 4).val, [3]⟩

/-- A populated store: one event, one transfer, marker at height 5. -/
def sampleStore : StoreState :=
  ⟨[sampleEventRow], [sampleTransferRow], some (beBytes4 5)⟩

/-- The environment in which exactly the marker upsert fails. -/
def failsMarker : CommitStep → Bool := fun st => decide (st = CommitStep.marker)

/-- A raw event payload. -/
def sampleTxEvent : TxEvent := ⟨addr 2, some (b32 5), none, none, none, none, [9]⟩

/-- A raw transfer payload. -/
def sampleTxTransfer : TxTransfer := ⟨addr 2, addr 4, 77⟩

/-- One accumulation call carrying the payloads above. -/
def sampleCall : InsertCall := ⟨b32 8, addr 3, [sampleTxEvent], [sampleTxTransfer], 0⟩

/-- A batch at height 1 built through Prepare / Insert. -/
def sampleBatch : BlockBatch := buildBatch hdr1 [sampleCall]

/-- Criteria group matching address `addr 1` only. -/
def critA : EventCriteria := ⟨some (addr 1), none, none, none, none, none⟩

/-- Criteria group matching address `addr 2` only. -/
def critB : EventCriteria := ⟨some (addr 2), none, none, none, none, none⟩

/-- Range [10,20] with two criteria groups: the input exhibiting the event
precedence flaw. -/
def cexFilter : EventFilter :=
  ⟨some ⟨RangeUnit.Block, 10, 20⟩, [critA, critB], OrderKind.ASC, none⟩

/-- A store whose only event lies at height 5, outside [10,20]. -/
def cexStore : StoreState := ⟨[sampleEventRow], [], none⟩

/-- Transfer criteria group on sender `addr 1`. -/
def tCritA : TransferCriteria := ⟨none, some (addr 1), none⟩

/-- Transfer criteria group on sender `addr 2`. -/
def tCritB : TransferCriteria := ⟨none, some (addr 2), none⟩

/-- The transfer filter analogous to `cexFilter`. -/
def tCexFilter : TransferFilter :=
  ⟨some ⟨RangeUnit.Block, 10, 20⟩, none, [tCritA, tCritB], OrderKind.ASC, none⟩

/-- A store whose only transfer lies at height 5, outside [10,20]. -/
def tCexStore : StoreState := ⟨[], [sampleTransferRow], none⟩

/-- A transfer filter constraining only the transaction id. -/
def sampleTFilter : TransferFilter :=
  ⟨none, some (b32 8), [], OrderKind.ASC, none⟩

/-- A context that fired before the call. -/
def cancelledAlways : Nat → Bool := fun _ => true

/-- The field the claim's Range semantics constrains: block number for unit
`Block`, block timestamp for unit `Time`. -/
def rowRangeField (u : RangeUnit) (bn bt : Nat) : Nat :=
  match u with
  | RangeUnit.Block => bn
  | RangeUnit.Time => bt

/-- The (block number, sequence index) key of a decoded event. -/
def eventKey (e : Event) : Nat × Nat := (e.blockNumber, e.index)

/-- The (block number, sequence index) key of a decoded transfer. -/
def transferKey (t : Transfer) : Nat × Nat := (t.blockNumber, t.index)

/-- The row list a `FilterEvents` call scans: the whole table for a nil
filter, the built SELECT's rows otherwise. -/
def eventScanList (f : Option EventFilter) (s : StoreState) : List EventRow :=
  match f with
  | none => s.events
  | some f => selectEventRows f s

/-- The row list a `FilterTransfers` call scans. -/
def transferScanList (g : Option TransferFilter) (s : StoreState) :
    List TransferRow :=
  match g with
  | none => s.transfers
  | some g => selectTransferRows g s

/-- Whether any statement of the commit whose error the source checks fails:
the two truncating DELETEs (executed only above genesis) and the record
INSERTs.  The marker upsert is deliberately absent — its error is discarded
by the source. -/
def anyCheckedFail (fails : CommitStep → Bool) (bb : BlockBatch) : Bool :=
  (decide (0 < bb.header.number) &&
    (fails CommitStep.truncEvents || fails CommitStep.truncTransfers)) ||
  (List.range bb.events.length).any (fun i => fails (CommitStep.insertEvent i)) ||
  (List.range bb.transfers.length).any (fun i => fails (CommitStep.insertTransfer i))

/-- The event insertion loop as a pure fold (its effect when no INSERT
fails). -/
def applyInsertEvents (evs : List Event) (l : List EventRow) : List EventRow :=
  evs.foldl (fun acc e => insertOrReplaceEvent e acc) l

/-- The transfer insertion loop as a pure fold. -/
def applyInsertTransfers (trs : List Transfer) (l : List TransferRow) :
    List TransferRow :=
  trs.foldl (fun acc t => insertOrReplaceTransfer t acc) l

/-- The store state a commit that reaches its end produces: truncation and
marker upsert above genesis (the marker skipped when its statement failed),
then all insertions. -/
def commitPure (markerFails : Bool) (bb : BlockBatch) (s : StoreState) :
    StoreState :=
  let s1 :=
    if 0 < bb.header.number then
      let sB := truncateTransfers bb.header.number (truncateEvents bb.header.number s)
      if markerFails then sB else setMarker bb.header.number sB
    else s
  { s1 with
    events := applyInsertEvents bb.events s1.events
    transfers := applyInsertTransfers bb.transfers s1.transfers }

/-- Two records of the same kind clash when they share the
(block number, sequence index) key. -/
def keyClashE (a b : Event) : Prop :=
  a.blockNumber = b.blockNumber ∧ a.index = b.index

def keyClashT (a b : Transfer) : Prop :=
  a.blockNumber = b.blockNumber ∧ a.index = b.index

/-- Every record of the batch is stamped with the batch's own block height and
the records' keys are pairwise distinct; what `Commit`'s reorg and round-trip
properties need of a batch.  Established below for every batch built through
`Prepare` / `Insert`. -/
def stampedDistinct (bb : BlockBatch) : Prop :=
  (∀ e ∈ bb.events, e.blockNumber = bb.header.number) ∧
  List.Pairwise (fun a b => ¬keyClashE a b) bb.events ∧
  (∀ t ∈ bb.transfers, t.blockNumber = bb.header.number) ∧
  List.Pairwise (fun a b => ¬keyClashT a b) bb.transfers

/-- The construction invariant of the accumulator: header untouched, sequence
indices are exactly 0,1,2,... in append order, all records stamped with the
header. -/
def accInv (h : Header) (bb : BlockBatch) : Prop :=
  bb.header = h ∧
  bb.events.map Event.index = List.range bb.events.length ∧
  bb.transfers.map Transfer.index = List.range bb.transfers.length ∧
  (∀ e ∈ bb.events, e.blockNumber = h.number) ∧
  (∀ t ∈ bb.transfers, t.blockNumber = h.number)

/-! ### Byte-encoding lemmas -/

theorem natToBEAux_zero (f : Nat) : natToBEAux f 0 = [] := by
  cases f <;> rfl

theorem natToBEAux_fuel (n : Nat) :
    ∀ f g : Nat, n ≤ f → n ≤ g → natToBEAux f n = natToBEAux g n := by
  induction n using Nat.strong_induction_on with
  | _ n ih =>
    intro f g hf hg
    match n, f, g with
    | 0, f, g => rw [natToBEAux_zero, natToBEAux_zero]
    | m + 1, f + 1, g + 1 =>
      show natToBEAux f ((m + 1) / 256) ++ _ = natToBEAux g ((m + 1) / 256) ++ _
      have hdiv : (m + 1) / 256 < m + 1 := Nat.div_lt_self (Nat.succ_pos m) (by omega)
      rw [ih _ hdiv f g (by omega) (by omega)]

theorem natToBE_succ (m : Nat) :
    natToBE (m + 1) = natToBE ((m + 1) / 256) ++ [(m + 1) % 256] := by
  have hdiv : (m + 1) / 256 < m + 1 := Nat.div_lt_self (Nat.succ_pos m) (by omega)
  show natToBEAux m ((m + 1) / 256) ++ _ = _
  rw [natToBEAux_fuel ((m + 1) / 256) m ((m + 1) / 256) (by omega) (le_refl _)]
  rfl

theorem beToNat_append_one (l : List Nat) (b : Nat) :
    beToNat (l ++ [b]) = beToNat l * 256 + b := by
  simp [beToNat, List.foldl_append]

/-- `big.Int.SetBytes` inverts `big.Int.Bytes()`: the amount round-trips. -/
theorem beToNat_natToBE (n : Nat) : beToNat (natToBE n) = n := by
  induction n using Nat.strong_induction_on with
  | _ n ih =>
    match n with
    | 0 => rfl
    | m + 1 =>
      have hdiv : (m + 1) / 256 < m + 1 := Nat.div_lt_self (Nat.succ_pos m) (by omega)
      rw [natToBE_succ, beToNat_append_one, ih _ hdiv]
      omega

theorem bytesToBytes32_exact (b : Bytes32) : bytesToBytes32 b.val = b := by
  apply Subtype.ext
  simp [bytesToBytes32, b.prop]

theorem bytesToAddress_exact (a : Address) : bytesToAddress a.val = a := by
  apply Subtype.ext
  simp [bytesToAddress, a.prop]

theorem decodeTopic_topicValue (t : Option Bytes32) :
    decodeTopic (topicValue t) = t := by
  cases t with
  | none => rfl
  | some b =>
    simp [decodeTopic, topicValue, b.prop, bytesToBytes32_exact]

/-- Every event field survives the store-then-scan column encoding. -/
theorem decodeEventRow_encodeEvent (e : Event) :
    decodeEventRow (encodeEvent e) = e := by
  cases e
  simp [decodeEventRow, encodeEvent, decodeTopic_topicValue,
    bytesToBytes32_exact, bytesToAddress_exact]

/-- Every transfer field survives the store-then-scan column encoding,
including the arbitrary-precision amount. -/
theorem decodeTransferRow_encodeTransfer (t : Transfer) :
    decodeTransferRow (encodeTransfer t) = t := by
  cases t
  simp [decodeTransferRow, encodeTransfer, bytesToBytes32_exact,
    bytesToAddress_exact, beToNat_natToBE]

/-! ### Scan-loop lemmas -/

theorem scanRows_noCancel {Row Rec : Type} (decode : Row → Rec) :
    ∀ (i : Nat) (rows : List Row),
      scanRows decode noCancel i rows = Except.ok (rows.map decode) := by
  intro i rows
  induction rows generalizing i with
  | nil => rfl
  | cons r rest ih => simp [scanRows, noCancel, ih]

theorem queryEvents_noCancel (rows : List EventRow) :
    queryEvents noCancel rows = Except.ok (rows.map decodeEventRow) := by
  simp [queryEvents, noCancel, scanRows_noCancel]

theorem queryTransfers_noCancel (rows : List TransferRow) :
    queryTransfers noCancel rows = Except.ok (rows.map decodeTransferRow) := by
  simp [queryTransfers, noCancel, scanRows_noCancel]

/-- If the cancellation signal has fired (persistently) by instant `k`, and
the scan still has a row to produce at or after instant `k`, the loop aborts
with the cancellation error. -/
theorem scanRows_cancelled {Row Rec : Type} (decode : Row → Rec)
    (cancelled : Nat → Bool) (k : Nat)
    (hpersist : ∀ j, k ≤ j → cancelled j = true) :
    ∀ (rows : List Row) (i : Nat), i ≤ k → k < i + rows.length →
      scanRows decode cancelled i rows = Except.error LogErr.cancelled := by
  intro rows
  induction rows with
  | nil =>
    intro i hik hki
    simp at hki
    omega
  | cons r rest ih =>
    intro i hik hki
    by_cases hc : cancelled i = true
    · simp [scanRows, hc]
    · have hik' : i + 1 ≤ k := by
        rcases Nat.lt_or_ge i k with hlt | hge
        · omega
        · have : cancelled i = true := hpersist i (by omega)
          exact absurd this hc
      have := ih (i + 1) hik' (by simp at hki ⊢; omega)
      simp [scanRows, hc, this]

/-! ### Commit characterization -/

theorem insertEventsFrom_ok (fails : CommitStep → Bool) :
    ∀ (evs : List Event) (i : Nat) (l : List EventRow),
      (∀ k, k < evs.length → fails (CommitStep.insertEvent (i + k)) = false) →
      insertEventsFrom fails i evs l = Except.ok (applyInsertEvents evs l) := by
  intro evs
  induction evs with
  | nil => intro i l _; rfl
  | cons e rest ih =>
    intro i l hall
    have h0 : fails (CommitStep.insertEvent i) = false := by
      have := hall 0 (by simp)
      simpa using this
    have hrest : ∀ k, k < rest.length →
        fails (CommitStep.insertEvent (i + 1 + k)) = false := by
      intro k hk
      have := hall (k + 1) (by simp; omega)
      simpa [Nat.add_assoc, Nat.add_comm 1 k] using this
    simp [insertEventsFrom, h0, ih (i + 1) _ hrest, applyInsertEvents]

theorem insertEventsFrom_error (fails : CommitStep → Bool) :
    ∀ (evs : List Event) (i : Nat) (l : List EventRow),
      (∃ k, k < evs.length ∧ fails (CommitStep.insertEvent (i + k)) = true) →
      insertEventsFrom fails i evs l = Except.error LogErr.storage := by
  intro evs
  induction evs with
  | nil =>
    intro i l h
    rcases h with ⟨k, hk, _⟩
    simp at hk
  | cons e rest ih =>
    intro i l h
    by_cases h0 : fails (CommitStep.insertEvent i) = true
    · simp [insertEventsFrom, h0]
    · rcases h with ⟨k, hk, hfk⟩
      match k with
      | 0 => exact absurd (by simpa using hfk) h0
      | k + 1 =>
        have : ∃ k', k' < rest.length ∧
            fails (CommitStep.insertEvent (i + 1 + k')) = true := by
          refine ⟨k, by simp at hk; omega, ?_⟩
          simpa [Nat.add_assoc, Nat.add_comm 1 k] using hfk
        simp [insertEventsFrom, h0, ih (i + 1) _ this]

theorem insertTransfersFrom_ok (fails : CommitStep → Bool) :
    ∀ (trs : List Transfer) (i : Nat) (l : List TransferRow),
      (∀ k, k < trs.length → fails (CommitStep.insertTransfer (i + k)) = false) →
      insertTransfersFrom fails i trs l = Except.ok (applyInsertTransfers trs l) := by
  intro trs
  induction trs with
  | nil => intro i l _; rfl
  | cons t rest ih =>
    intro i l hall
    have h0 : fails (CommitStep.insertTransfer i) = false := by
      have := hall 0 (by simp)
      simpa using this
    have hrest : ∀ k, k < rest.length →
        fails (CommitStep.insertTransfer (i + 1 + k)) = false := by
      intro k hk
      have := hall (k + 1) (by simp; omega)
      simpa [Nat.add_assoc, Nat.add_comm 1 k] using this
    simp [insertTransfersFrom, h0, ih (i + 1) _ hrest, applyInsertTransfers]

theorem insertTransfersFrom_error (fails : CommitStep → Bool) :
    ∀ (trs : List Transfer) (i : Nat) (l : List TransferRow),
      (∃ k, k < trs.length ∧ fails (CommitStep.insertTransfer (i + k)) = true) →
      insertTransfersFrom fails i trs l = Except.error LogErr.storage := by
  intro trs
  induction trs with
  | nil =>
    intro i l h
    rcases h with ⟨k, hk, _⟩
    simp at hk
  | cons t rest ih =>
    intro i l h
    by_cases h0 : fails (CommitStep.insertTransfer i) = true
    · simp [insertTransfersFrom, h0]
    · rcases h with ⟨k, hk, hfk⟩
      match k with
      | 0 => exact absurd (by simpa using hfk) h0
      | k + 1 =>
        have : ∃ k', k' < rest.length ∧
            fails (CommitStep.insertTransfer (i + 1 + k')) = true := by
          refine ⟨k, by simp at hk; omega, ?_⟩
          simpa [Nat.add_assoc, Nat.add_comm 1 k] using hfk
        simp [insertTransfersFrom, h0, ih (i + 1) _ this]

theorem range_any_true {p : Nat → Bool} {n : Nat}
    (h : (List.range n).any p = true) : ∃ k, k < n ∧ p k = true := by
  simpa [List.any_eq_true, List.mem_range] using h

theorem range_any_false {p : Nat → Bool} {n : Nat}
    (h : (List.range n).any p = false) : ∀ k, k < n → p k = false := by
  intro k hk
  by_cases hp : p k = true
  · have : (List.range n).any p = true := by
      simp [List.any_eq_true, List.mem_range]
      exact ⟨k, hk, hp⟩
    rw [this] at h
    cases h
  · simpa using hp

/-- Full characterization of `Commit`: it fails (with rollback, the observable
state unchanged) exactly when a statement whose error the source checks
fails; otherwise it succeeds and the observable state is `commitPure` — with
the marker skipped exactly when the marker statement failed, since that error
is discarded. -/
theorem Commit_spec (fails : CommitStep → Bool) (bb : BlockBatch) (s : StoreState) :
    BlockBatch.Commit fails bb s =
      if anyCheckedFail fails bb then (some LogErr.storage, s)
      else (none, commitPure (fails CommitStep.marker) bb s) := by
  have main : commitProc fails bb s =
      if anyCheckedFail fails bb then Except.error LogErr.storage
      else Except.ok (commitPure (fails CommitStep.marker) bb s) := by
    by_cases h0 : 0 < bb.header.number
    · by_cases hTE : fails CommitStep.truncEvents = true
      · have hany : anyCheckedFail fails bb = true := by
          simp [anyCheckedFail, h0, hTE]
        simp [commitProc, h0, hTE, hany]
      · by_cases hTT : fails CommitStep.truncTransfers = true
        · have hany : anyCheckedFail fails bb = true := by
            simp [anyCheckedFail, h0, hTT]
          simp [commitProc, h0, hTE, hTT, hany]
        · by_cases hev : (List.range bb.events.length).any
              (fun i => fails (CommitStep.insertEvent i)) = true
          · have hany : anyCheckedFail fails bb = true := by
              simp [anyCheckedFail, hev]
            rcases range_any_true hev with ⟨k, hk, hfk⟩
            have herr := fun l => insertEventsFrom_error fails bb.events 0 l
              ⟨k, hk, by simpa using hfk⟩
            simp [commitProc, h0, hTE, hTT, herr, hany]
          · have hallE := range_any_false (by simpa using hev)
            have hokE := fun l => insertEventsFrom_ok fails bb.events 0 l
              (fun k hk => by simpa using hallE k hk)
            by_cases htr : (List.range bb.transfers.length).any
                (fun i => fails (CommitStep.insertTransfer i)) = true
            · have hany : anyCheckedFail fails bb = true := by
                simp [anyCheckedFail, htr]
              rcases range_any_true htr with ⟨k, hk, hfk⟩
              have herr := fun l => insertTransfersFrom_error fails bb.transfers 0 l
                ⟨k, hk, by simpa using hfk⟩
              simp [commitProc, h0, hTE, hTT, hokE, herr, hany]
            · have hallT := range_any_false (by simpa using htr)
              have hokT := fun l => insertTransfersFrom_ok fails bb.transfers 0 l
                (fun k hk => by simpa using hallT k hk)
              have hany : anyCheckedFail fails bb = false := by
                simp [anyCheckedFail, h0, hTE, hTT]
                exact ⟨fun k hk => by simpa using hallE k hk,
                  fun k hk => by simpa using hallT k hk⟩
              simp [commitProc, h0, hTE, hTT, hokE, hokT, hany, commitPure]
    · by_cases hev : (List.range bb.events.length).any
          (fun i => fails (CommitStep.insertEvent i)) = true
      · have hany : anyCheckedFail fails bb = true := by
          simp [anyCheckedFail, hev]
        rcases range_any_true hev with ⟨k, hk, hfk⟩
        have herr := fun l => insertEventsFrom_error fails bb.events 0 l
          ⟨k, hk, by simpa using hfk⟩
        simp [commitProc, h0, herr, hany]
      · have hallE := range_any_false (by simpa using hev)
        have hokE := fun l => insertEventsFrom_ok fails bb.events 0 l
          (fun k hk => by simpa using hallE k hk)
        by_cases htr : (List.range bb.transfers.length).any
            (fun i => fails (CommitStep.insertTransfer i)) = true
        · have hany : anyCheckedFail fails bb = true := by
            simp [anyCheckedFail, htr]
          rcases range_any_true htr with ⟨k, hk, hfk⟩
          have herr := fun l => insertTransfersFrom_error fails bb.transfers 0 l
            ⟨k, hk, by simpa using hfk⟩
          simp [commitProc, h0, hokE, herr, hany]
        · have hallT := range_any_false (by simpa using htr)
          have hokT := fun l => insertTransfersFrom_ok fails bb.transfers 0 l
            (fun k hk => by simpa using hallT k hk)
          have hany : anyCheckedFail fails bb = false := by
            simp [anyCheckedFail, h0]
            exact ⟨fun k hk => by simpa using hallE k hk,
              fun k hk => by simpa using hallT k hk⟩
          simp [commitProc, h0, hokE, hokT, hany, commitPure]
  unfold BlockBatch.Commit execInTx
  rw [main]
  by_cases hany : anyCheckedFail fails bb = true <;> simp [hany]

/-! ### Insertion on key-fresh tables -/

theorem insertOrReplaceEvent_fresh (e : Event) (l : List EventRow)
    (h : ∀ r ∈ l, ¬(r.blockNumber = e.blockNumber ∧ r.eventIndex = e.index)) :
    insertOrReplaceEvent e l = l ++ [encodeEvent e] := by
  unfold insertOrReplaceEvent
  congr 1
  apply List.filter_eq_self.mpr
  intro r hr
  simpa using not_and_or.mp (h r hr)

theorem insertOrReplaceTransfer_fresh (t : Transfer) (l : List TransferRow)
    (h : ∀ r ∈ l, ¬(r.blockNumber = t.blockNumber ∧ r.transferIndex = t.index)) :
    insertOrReplaceTransfer t l = l ++ [encodeTransfer t] := by
  unfold insertOrReplaceTransfer
  congr 1
  apply List.filter_eq_self.mpr
  intro r hr
  simpa using not_and_or.mp (h r hr)

/-- When no inserted record's key is already on the table and the batch's own
keys are pairwise distinct, the insert-or-replace loop is a plain append. -/
theorem applyInsertEvents_fresh :
    ∀ (evs : List Event) (l : List EventRow),
      (∀ e ∈ evs, ∀ r ∈ l, ¬(r.blockNumber = e.blockNumber ∧ r.eventIndex = e.index)) →
      List.Pairwise (fun a b => ¬keyClashE a b) evs →
      applyInsertEvents evs l = l ++ evs.map encodeEvent := by
  intro evs
  induction evs with
  | nil => intro l _ _; simp [applyInsertEvents]
  | cons e rest ih =>
    intro l hfresh hpair
    rcases List.pairwise_cons.mp hpair with ⟨hhead, htail⟩
    have step : applyInsertEvents (e :: rest) l
        = applyInsertEvents rest (insertOrReplaceEvent e l) := rfl
    rw [step, insertOrReplaceEvent_fresh e l (hfresh e (by simp))]
    rw [ih (l ++ [encodeEvent e]) ?_ htail]
    · simp
    · intro e' he' r hr
      rcases List.mem_append.mp hr with hlr | hsing
      · exact hfresh e' (by simp [he']) r hlr
      · have hre : r = encodeEvent e := by simpa using hsing
        subst hre
        have := hhead e' he'
        simpa [encodeEvent, keyClashE] using this

theorem applyInsertTransfers_fresh :
    ∀ (trs : List Transfer) (l : List TransferRow),
      (∀ t ∈ trs, ∀ r ∈ l, ¬(r.blockNumber = t.blockNumber ∧ r.transferIndex = t.index)) →
      List.Pairwise (fun a b => ¬keyClashT a b) trs →
      applyInsertTransfers trs l = l ++ trs.map encodeTransfer := by
  intro trs
  induction trs with
  | nil => intro l _ _; simp [applyInsertTransfers]
  | cons t rest ih =>
    intro l hfresh hpair
    rcases List.pairwise_cons.mp hpair with ⟨hhead, htail⟩
    have step : applyInsertTransfers (t :: rest) l
        = applyInsertTransfers rest (insertOrReplaceTransfer t l) := rfl
    rw [step, insertOrReplaceTransfer_fresh t l (hfresh t (by simp))]
    rw [ih (l ++ [encodeTransfer t]) ?_ htail]
    · simp
    · intro t' ht' r hr
      rcases List.mem_append.mp hr with hlr | hsing
      · exact hfresh t' (by simp [ht']) r hlr
      · have hrt : r = encodeTransfer t := by simpa using hsing
        subst hrt
        have := hhead t' ht'
        simpa [encodeTransfer, keyClashT] using this

/-! ### Batch construction invariants -/

theorem accInv_insert (h : Header) (bb : BlockBatch) (txID : Bytes32)
    (txOrigin : Address) (events : List TxEvent) (transfers : List TxTransfer)
    (clauseIndex : Nat) (hinv : accInv h bb) :
    accInv h (bb.insert txID txOrigin events transfers clauseIndex) := by
  unfold BlockBatch.insert
  have step1 : ∀ (evl : List TxEvent) (b : BlockBatch), accInv h b →
      accInv h (evl.foldl
        (fun b ev =>
          { b with events :=
              b.events ++ [newEvent b.header b.events.length txID txOrigin clauseIndex ev] })
        b) := by
    intro evl
    induction evl with
    | nil => intro b hb; exact hb
    | cons ev rest ih =>
      intro b hb
      apply ih
      rcases hb with ⟨hh, hei, hti, hes, hts⟩
      refine ⟨hh, ?_, hti, ?_, hts⟩
      · simp [hei, List.range_succ, newEvent]
      · intro e he
        rcases List.mem_append.mp he with hin | hnew
        · exact hes e hin
        · have : e = newEvent b.header b.events.length txID txOrigin clauseIndex ev := by
            simpa using hnew
          subst this
          simp [newEvent, hh]
  have step2 : ∀ (trl : List TxTransfer) (b : BlockBatch), accInv h b →
      accInv h (trl.foldl
        (fun b tr =>
          { b with transfers :=
              b.transfers ++ [newTransfer b.header b.transfers.length txID txOrigin clauseIndex tr] })
        b) := by
    intro trl
    induction trl with
    | nil => intro b hb; exact hb
    | cons tr rest ih =>
      intro b hb
      apply ih
      rcases hb with ⟨hh, hei, hti, hes, hts⟩
      refine ⟨hh, hei, ?_, hes, ?_⟩
      · simp [hti, List.range_succ, newTransfer]
      · intro t ht
        rcases List.mem_append.mp ht with hin | hnew
        · exact hts t hin
        · have : t = newTransfer b.header b.transfers.length txID txOrigin clauseIndex tr := by
            simpa using hnew
          subst this
          simp [newTransfer, hh]
  exact step2 transfers _ (step1 events bb hinv)

theorem accInv_buildBatch (h : Header) (calls : List InsertCall) :
    accInv h (buildBatch h calls) := by
  unfold buildBatch
  have base : accInv h (Prepare h) := by
    refine ⟨rfl, by simp [Prepare], by simp [Prepare], ?_, ?_⟩ <;> simp [Prepare]
  have : ∀ (cs : List InsertCall) (b : BlockBatch), accInv h b →
      accInv h (cs.foldl
        (fun b c => b.insert c.txID c.txOrigin c.events c.transfers c.clauseIndex) b) := by
    intro cs
    induction cs with
    | nil => intro b hb; exact hb
    | cons c rest ih =>
      intro b hb
      exact ih _ (accInv_insert h b c.txID c.txOrigin c.events c.transfers c.clauseIndex hb)
  exact this calls (Prepare h) base

theorem pairwiseE_of_indexMap {l : List Event}
    (h : l.map Event.index = List.range l.length) :
    List.Pairwise (fun a b => ¬keyClashE a b) l := by
  have hlt : List.Pairwise (· < ·) (l.map Event.index) := by
    rw [h]
    exact List.pairwise_lt_range l.length
  rw [List.pairwise_map] at hlt
  exact hlt.imp (fun hab hk => absurd hk.2 (Nat.ne_of_lt hab))

theorem pairwiseT_of_indexMap {l : List Transfer}
    (h : l.map Transfer.index = List.range l.length) :
    List.Pairwise (fun a b => ¬keyClashT a b) l := by
  have hlt : List.Pairwise (· < ·) (l.map Transfer.index) := by
    rw [h]
    exact List.pairwise_lt_range l.length
  rw [List.pairwise_map] at hlt
  exact hlt.imp (fun hab hk => absurd hk.2 (Nat.ne_of_lt hab))

theorem stampedDistinct_of_accInv {h : Header} {bb : BlockBatch}
    (hinv : accInv h bb) : stampedDistinct bb := by
  rcases hinv with ⟨hh, hei, hti, hes, hts⟩
  subst hh
  exact ⟨hes, pairwiseE_of_indexMap hei, hts, pairwiseT_of_indexMap hti⟩

theorem stampedDistinct_buildBatch (h : Header) (calls : List InsertCall) :
    stampedDistinct (buildBatch h calls) :=
  stampedDistinct_of_accInv (accInv_buildBatch h calls)

/-! ### Commit under a failure-free environment -/

theorem anyCheckedFail_noFail (bb : BlockBatch) :
    anyCheckedFail noFail bb = false := by
  simp [anyCheckedFail, noFail]

/-- The effect of a failure-free commit above genesis: truncate both tables
at the batch height, set the marker, append the encoded batch records. -/
theorem commit_noFail_reorg (bb : BlockBatch) (s : StoreState)
    (h0 : 0 < bb.header.number) (hsd : stampedDistinct bb) :
    BlockBatch.Commit noFail bb s =
      (none,
       ⟨s.events.filter (fun r => decide (r.blockNumber < bb.header.number))
           ++ bb.events.map encodeEvent,
         s.transfers.filter (fun r => decide (r.blockNumber < bb.header.number))
           ++ bb.transfers.map encodeTransfer,
         some (beBytes4 bb.header.number)⟩) := by
  rcases hsd with ⟨hse, hpe, hst, hpt⟩
  rw [Commit_spec, anyCheckedFail_noFail]
  have hfe : ∀ e ∈ bb.events,
      ∀ r ∈ s.events.filter (fun r => decide (r.blockNumber < bb.header.number)),
        ¬(r.blockNumber = e.blockNumber ∧ r.eventIndex = e.index) := by
    intro e he r hr hk
    have hlt : r.blockNumber < bb.header.number := by
      simpa using (List.mem_filter.mp hr).2
    have := hse e he
    omega
  have hft : ∀ t ∈ bb.transfers,
      ∀ r ∈ s.transfers.filter (fun r => decide (r.blockNumber < bb.header.number)),
        ¬(r.blockNumber = t.blockNumber ∧ r.transferIndex = t.index) := by
    intro t ht r hr hk
    have hlt : r.blockNumber < bb.header.number := by
      simpa using (List.mem_filter.mp hr).2
    have := hst t ht
    omega
  have hE := applyInsertEvents_fresh bb.events
    (s.events.filter (fun r => decide (r.blockNumber < bb.header.number))) hfe hpe
  have hT := applyInsertTransfers_fresh bb.transfers
    (s.transfers.filter (fun r => decide (r.blockNumber < bb.header.number))) hft hpt
  simp [commitPure, h0, noFail, truncateEvents, truncateTransfers, setMarker, hE, hT]

/-! ### C2: commit atomicity -/

/-- C2 is refuted by the marker statement: its error is discarded, so when
exactly the marker upsert fails, Commit still reports success and the
truncations (and insertions) are durably applied — observable partial
effects of a commit one of whose steps failed. -/
theorem commit_marker_failure_counterexample :
    failsMarker CommitStep.marker = true ∧
    0 < (Prepare hdr1).header.number ∧
    (BlockBatch.Commit failsMarker (Prepare hdr1) sampleStore).1 = none ∧
    (BlockBatch.Commit failsMarker (Prepare hdr1) sampleStore).2 ≠ sampleStore := by
  refine ⟨rfl, by decide, rfl, by decide⟩

/-- C2 (amended): Commit is atomic for every statement whose error the source
checks — it returns a StorageError exactly when the truncation of either
table or any record insertion fails, and then the pre-commit state is fully
preserved; but a failure of the marker upsert alone is silently ignored:
Commit still succeeds, with truncation and insertions applied and the marker
left unwritten. -/
theorem commit_atomicity_amended (fails : CommitStep → Bool) (bb : BlockBatch)
    (s : StoreState) :
    ((BlockBatch.Commit fails bb s).1 = some LogErr.storage ↔
      anyCheckedFail fails bb = true) ∧
    (anyCheckedFail fails bb = true → (BlockBatch.Commit fails bb s).2 = s) ∧
    (anyCheckedFail fails bb = false →
      BlockBatch.Commit fails bb s =
        (none, commitPure (fails CommitStep.marker) bb s)) := by
  rw [Commit_spec]
  by_cases h : anyCheckedFail fails bb = true <;> simp [h]

theorem commit_atomicity_amended_witness :
    BlockBatch.Commit failsMarker (Prepare hdr1) sampleStore =
      (none, commitPure (failsMarker CommitStep.marker) (Prepare hdr1) sampleStore) :=
  (commit_atomicity_amended failsMarker (Prepare hdr1) sampleStore).2.2 (by decide)

/-! ### C4: reorg truncation -/

/-- C4: committing a batch at height H > 0 (whose records are stamped with H
and carry distinct keys, as every batch built through Prepare / Insert does)
deletes every stored record of both kinds with block number ≥ H, leaves all
records below H unchanged, and appends exactly the new records for height H
(and sets the marker to H). -/
theorem commit_reorg_truncation (bb : BlockBatch) (s : StoreState)
    (h0 : 0 < bb.header.number) (hsd : stampedDistinct bb) :
    BlockBatch.Commit noFail bb s =
      (none,
       ⟨s.events.filter (fun r => decide (r.blockNumber < bb.header.number))
           ++ bb.events.map encodeEvent,
         s.transfers.filter (fun r => decide (r.blockNumber < bb.header.number))
           ++ bb.transfers.map encodeTransfer,
         some (beBytes4 bb.header.number)⟩) :=
  commit_noFail_reorg bb s h0 hsd

theorem commit_reorg_truncation_witness :
    BlockBatch.Commit noFail sampleBatch sampleStore =
      (none,
       ⟨sampleStore.events.filter
             (fun r => decide (r.blockNumber < sampleBatch.header.number))
           ++ sampleBatch.events.map encodeEvent,
         sampleStore.transfers.filter
             (fun r => decide (r.blockNumber < sampleBatch.header.number))
           ++ sampleBatch.transfers.map encodeTransfer,
         some (beBytes4 sampleBatch.header.number)⟩) :=
  commit_reorg_truncation sampleBatch sampleStore (by decide)
    (stampedDistinct_buildBatch hdr1 [sampleCall])

/-! ### C3: batch state machine -/

/-- C3 is refuted: a `BlockBatch` carries no state field at all, so nothing
is terminal — a second Commit after a successful Commit is accepted and
reports success again, instead of being an error. -/
theorem second_commit_not_error_counterexample :
    (BlockBatch.Commit noFail sampleBatch sampleStore).1 = none ∧
    (BlockBatch.Commit noFail sampleBatch
        (BlockBatch.Commit noFail sampleBatch sampleStore).2).1 = none := by
  exact ⟨rfl, rfl⟩

/-- C3 (amended): the code enforces no Building/Committed/Aborted state
machine.  After a successful failure-free Commit of a batch above genesis
(stamped, distinct keys — as Prepare / Insert produces), calling Commit again
is not an error: it succeeds and, thanks to truncate-then-reinsert with
insert-or-replace keys, leaves the store exactly as the first Commit did. -/
theorem commit_idempotent_amended (bb : BlockBatch) (s : StoreState)
    (h0 : 0 < bb.header.number) (hsd : stampedDistinct bb) :
    (BlockBatch.Commit noFail bb s).1 = none ∧
    BlockBatch.Commit noFail bb ((BlockBatch.Commit noFail bb s).2) =
      (none, (BlockBatch.Commit noFail bb s).2) := by
  have h1 := commit_noFail_reorg bb s h0 hsd
  rcases hsd with ⟨hse, hpe, hst, hpt⟩
  have hfiltE : ∀ (l : List EventRow),
      ((l.filter (fun r => decide (r.blockNumber < bb.header.number))
          ++ bb.events.map encodeEvent).filter
        (fun r => decide (r.blockNumber < bb.header.number)))
      = l.filter (fun r => decide (r.blockNumber < bb.header.number)) := by
    intro l
    rw [List.filter_append]
    have hA : (l.filter (fun r => decide (r.blockNumber < bb.header.number))).filter
        (fun r => decide (r.blockNumber < bb.header.number))
        = l.filter (fun r => decide (r.blockNumber < bb.header.number)) :=
      List.filter_eq_self.mpr (fun r hr => (List.mem_filter.mp hr).2)
    have hB : (bb.events.map encodeEvent).filter
        (fun r => decide (r.blockNumber < bb.header.number)) = [] := by
      apply List.filter_eq_nil_iff.mpr
      intro r hr
      rcases List.mem_map.mp hr with ⟨e, he, hre⟩
      subst hre
      have := hse e he
      simp [encodeEvent, this]
    rw [hA, hB, List.append_nil]
  have hfiltT : ∀ (l : List TransferRow),
      ((l.filter (fun r => decide (r.blockNumber < bb.header.number))
          ++ bb.transfers.map encodeTransfer).filter
        (fun r => decide (r.blockNumber < bb.header.number)))
      = l.filter (fun r => decide (r.blockNumber < bb.header.number)) := by
    intro l
    rw [List.filter_append]
    have hA : (l.filter (fun r => decide (r.blockNumber < bb.header.number))).filter
        (fun r => decide (r.blockNumber < bb.header.number))
        = l.filter (fun r => decide (r.blockNumber < bb.header.number)) :=
      List.filter_eq_self.mpr (fun r hr => (List.mem_filter.mp hr).2)
    have hB : (bb.transfers.map encodeTransfer).filter
        (fun r => decide (r.blockNumber < bb.header.number)) = [] := by
      apply List.filter_eq_nil_iff.mpr
      intro r hr
      rcases List.mem_map.mp hr with ⟨t, ht, hrt⟩
      subst hrt
      have := hst t ht
      simp [encodeTransfer, this]
    rw [hA, hB, List.append_nil]
  constructor
  · rw [h1]
  · rw [h1]
    have h2 := commit_noFail_reorg bb
      ⟨s.events.filter (fun r => decide (r.blockNumber < bb.header.number))
          ++ bb.events.map encodeEvent,
        s.transfers.filter (fun r => decide (r.blockNumber < bb.header.number))
          ++ bb.transfers.map encodeTransfer,
        some (beBytes4 bb.header.number)⟩ h0 ⟨hse, hpe, hst, hpt⟩
    rw [h2]
    simp only [hfiltE s.events, hfiltT s.transfers]

theorem commit_idempotent_amended_witness :
    (BlockBatch.Commit noFail sampleBatch sampleStore).1 = none ∧
    BlockBatch.Commit noFail sampleBatch
        ((BlockBatch.Commit noFail sampleBatch sampleStore).2) =
      (none, (BlockBatch.Commit noFail sampleBatch sampleStore).2) :=
  commit_idempotent_amended sampleBatch sampleStore (by decide)
    (stampedDistinct_buildBatch hdr1 [sampleCall])

/-! ### C6: genesis exemption -/

/-- C6: committing a batch bound to a header of height 0 never truncates
either table and never changes the marker — `QueryLastBlockNumber` reads the
same value before and after, under every failure environment — while the
accumulated records are still inserted (the whole effect of a failure-free
genesis commit is the two insertion folds). -/
theorem genesis_exemption (fails : CommitStep → Bool) (bb : BlockBatch)
    (s : StoreState) (h0 : bb.header.number = 0) :
    ((BlockBatch.Commit fails bb s).2).config = s.config ∧
    QueryLastBlockNumber (BlockBatch.Commit fails bb s).2 = QueryLastBlockNumber s ∧
    BlockBatch.Commit noFail bb s =
      (none,
       ⟨applyInsertEvents bb.events s.events,
         applyInsertTransfers bb.transfers s.transfers,
         s.config⟩) := by
  have hnot : ¬0 < bb.header.number := by omega
  have hconfig : ((BlockBatch.Commit fails bb s).2).config = s.config := by
    rw [Commit_spec]
    by_cases h : anyCheckedFail fails bb = true <;> simp [h, commitPure, hnot]
  refine ⟨hconfig, ?_, ?_⟩
  · simp [QueryLastBlockNumber, hconfig]
  · rw [Commit_spec, anyCheckedFail_noFail]
    simp [commitPure, hnot, noFail]

/-! ### Filter helpers -/

theorem filterEvents_ok (f : EventFilter) (s : StoreState) :
    FilterEvents noCancel (some f) s =
      Except.ok ((selectEventRows f s).map decodeEventRow) := by
  simp [FilterEvents, queryEvents_noCancel]

theorem filterTransfers_ok (f : TransferFilter) (s : StoreState) :
    FilterTransfers noCancel (some f) s =
      Except.ok ((selectTransferRows f s).map decodeTransferRow) := by
  simp [FilterTransfers, queryTransfers_noCancel]

theorem map_decode_encode_events (evs : List Event) :
    (evs.map encodeEvent).map decodeEventRow = evs := by
  rw [List.map_map]
  have : ∀ e ∈ evs, (decodeEventRow ∘ encodeEvent) e = id e := by
    intro e _
    simp [decodeEventRow_encodeEvent]
  rw [List.map_congr_left this, List.map_id]

theorem map_decode_encode_transfers (trs : List Transfer) :
    (trs.map encodeTransfer).map decodeTransferRow = trs := by
  rw [List.map_map]
  have : ∀ t ∈ trs, (decodeTransferRow ∘ encodeTransfer) t = id t := by
    intro t _
    simp [decodeTransferRow_encodeTransfer]
  rw [List.map_congr_left this, List.map_id]

theorem selectEventRows_noOpt_perm (f : EventFilter) (s : StoreState)
    (hopt : f.options = none) :
    (selectEventRows f s).Perm (s.events.filter (fun r => eventWhere f r)) := by
  unfold selectEventRows
  rw [hopt]
  simpa [paginate] using List.perm_insertionSort
    (keyOrder eventRowKey (decide (f.order = OrderKind.DESC)))
    (s.events.filter (fun r => eventWhere f r))

theorem selectTransferRows_noOpt_perm (f : TransferFilter) (s : StoreState)
    (hopt : f.options = none) :
    (selectTransferRows f s).Perm
      (s.transfers.filter (fun r => transferWhere f r)) := by
  unfold selectTransferRows
  rw [hopt]
  simpa [paginate] using List.perm_insertionSort
    (keyOrder transferRowKey (decide (f.order = OrderKind.DESC)))
    (s.transfers.filter (fun r => transferWhere f r))

theorem rangeCond_closed (u : RangeUnit) (a b bn bt : Nat) (hab : a ≤ b) :
    rangeCond (some ⟨u, a, b⟩) bn bt =
      decide (a ≤ rowRangeField u bn bt ∧ rowRangeField u bn bt ≤ b) := by
  cases u <;> simp [rangeCond, rowRangeField, hab]

theorem rangeCond_open (u : RangeUnit) (a b bn bt : Nat) (hba : b < a) :
    rangeCond (some ⟨u, a, b⟩) bn bt = decide (a ≤ rowRangeField u bn bt) := by
  have : ¬a ≤ b := by omega
  cases u <;> simp [rangeCond, rowRangeField, this]

/-! ### C5: round trip -/

/-- C5: a batch built through Prepare / Insert and committed (failure-free)
to an empty store is read back exactly, record for record and field for
field, by an unfiltered FilterEvents / FilterTransfers. -/
theorem commit_filter_round_trip (h : Header) (calls : List InsertCall) :
    FilterEvents noCancel none
        (BlockBatch.Commit noFail (buildBatch h calls) ⟨[], [], none⟩).2 =
      Except.ok (buildBatch h calls).events ∧
    FilterTransfers noCancel none
        (BlockBatch.Commit noFail (buildBatch h calls) ⟨[], [], none⟩).2 =
      Except.ok (buildBatch h calls).transfers := by
  rcases stampedDistinct_buildBatch h calls with ⟨hse, hpe, hst, hpt⟩
  have hE := applyInsertEvents_fresh (buildBatch h calls).events []
    (by intro e _ r hr; cases hr) hpe
  have hT := applyInsertTransfers_fresh (buildBatch h calls).transfers []
    (by intro t _ r hr; cases hr) hpt
  have hstate :
      ((BlockBatch.Commit noFail (buildBatch h calls) ⟨[], [], none⟩).2).events =
        (buildBatch h calls).events.map encodeEvent ∧
      ((BlockBatch.Commit noFail (buildBatch h calls) ⟨[], [], none⟩).2).transfers =
        (buildBatch h calls).transfers.map encodeTransfer := by
    rw [Commit_spec, anyCheckedFail_noFail]
    by_cases h0 : 0 < (buildBatch h calls).header.number <;>
      simp [commitPure, h0, noFail, truncateEvents, truncateTransfers,
        setMarker, hE, hT]
  constructor
  · simp only [FilterEvents, queryEvents_noCancel, hstate.1,
      map_decode_encode_events]
  · simp only [FilterTransfers, queryTransfers_noCancel, hstate.2,
      map_decode_encode_transfers]

/-! ### C7: range semantics -/

/-- C7: for a range-only filter (of either kind): a nil Range constrains
nothing; a Range with to ≥ from selects exactly the records whose block
number (unit Block) or block timestamp (unit Time) lies in the inclusive
interval [from, to]; a Range with to < from is unbounded above, selecting
exactly the records with that field ≥ from.  The first conjunct of each pair
links the returned records to the selected rows. -/
theorem range_semantics (s : StoreState) (u : RangeUnit) (a b : Nat)
    (ord : OrderKind) :
    (FilterEvents noCancel (some ⟨none, [], ord, none⟩) s =
      Except.ok ((selectEventRows ⟨none, [], ord, none⟩ s).map decodeEventRow)) ∧
    (selectEventRows ⟨none, [], ord, none⟩ s).Perm s.events ∧
    (FilterEvents noCancel (some ⟨some ⟨u, a, b⟩, [], ord, none⟩) s =
      Except.ok ((selectEventRows ⟨some ⟨u, a, b⟩, [], ord, none⟩ s).map
        decodeEventRow)) ∧
    (a ≤ b →
      (selectEventRows ⟨some ⟨u, a, b⟩, [], ord, none⟩ s).Perm
        (s.events.filter (fun r =>
          decide (a ≤ rowRangeField u r.blockNumber r.blockTime ∧
            rowRangeField u r.blockNumber r.blockTime ≤ b)))) ∧
    (b < a →
      (selectEventRows ⟨some ⟨u, a, b⟩, [], ord, none⟩ s).Perm
        (s.events.filter (fun r =>
          decide (a ≤ rowRangeField u r.blockNumber r.blockTime)))) ∧
    (FilterTransfers noCancel (some ⟨none, none, [], ord, none⟩) s =
      Except.ok ((selectTransferRows ⟨none, none, [], ord, none⟩ s).map
        decodeTransferRow)) ∧
    (selectTransferRows ⟨none, none, [], ord, none⟩ s).Perm s.transfers ∧
    (FilterTransfers noCancel (some ⟨some ⟨u, a, b⟩, none, [], ord, none⟩) s =
      Except.ok ((selectTransferRows ⟨some ⟨u, a, b⟩, none, [], ord, none⟩ s).map
        decodeTransferRow)) ∧
    (a ≤ b →
      (selectTransferRows ⟨some ⟨u, a, b⟩, none, [], ord, none⟩ s).Perm
        (s.transfers.filter (fun r =>
          decide (a ≤ rowRangeField u r.blockNumber r.blockTime ∧
            rowRangeField u r.blockNumber r.blockTime ≤ b)))) ∧
    (b < a →
      (selectTransferRows ⟨some ⟨u, a, b⟩, none, [], ord, none⟩ s).Perm
        (s.transfers.filter (fun r =>
          decide (a ≤ rowRangeField u r.blockNumber r.blockTime)))) := by
  have hWnone : ∀ r : EventRow, eventWhere ⟨none, [], ord, none⟩ r = true := by
    intro r
    simp [eventWhere, rangeCond]
  have hWab : ∀ r : EventRow, eventWhere ⟨some ⟨u, a, b⟩, [], ord, none⟩ r =
      rangeCond (some ⟨u, a, b⟩) r.blockNumber r.blockTime := by
    intro r
    simp [eventWhere]
  have hTnone : ∀ r : TransferRow,
      transferWhere ⟨none, none, [], ord, none⟩ r = true := by
    intro r
    simp [transferWhere, rangeCond, optEq]
  have hTab : ∀ r : TransferRow,
      transferWhere ⟨some ⟨u, a, b⟩, none, [], ord, none⟩ r =
        rangeCond (some ⟨u, a, b⟩) r.blockNumber r.blockTime := by
    intro r
    simp [transferWhere, optEq]
  refine ⟨filterEvents_ok _ s, ?_, filterEvents_ok _ s, ?_, ?_,
    filterTransfers_ok _ s, ?_, filterTransfers_ok _ s, ?_, ?_⟩
  · have hp := selectEventRows_noOpt_perm ⟨none, [], ord, none⟩ s rfl
    rwa [List.filter_congr (fun r _ => hWnone r), List.filter_true] at hp
  · intro hab
    have hp := selectEventRows_noOpt_perm ⟨some ⟨u, a, b⟩, [], ord, none⟩ s rfl
    rwa [List.filter_congr
      (fun r _ => (hWab r).trans (rangeCond_closed u a b _ _ hab))] at hp
  · intro hba
    have hp := selectEventRows_noOpt_perm ⟨some ⟨u, a, b⟩, [], ord, none⟩ s rfl
    rwa [List.filter_congr
      (fun r _ => (hWab r).trans (rangeCond_open u a b _ _ hba))] at hp
  · have hp := selectTransferRows_noOpt_perm ⟨none, none, [], ord, none⟩ s rfl
    rwa [List.filter_congr (fun r _ => hTnone r), List.filter_true] at hp
  · intro hab
    have hp := selectTransferRows_noOpt_perm ⟨some ⟨u, a, b⟩, none, [], ord, none⟩ s rfl
    rwa [List.filter_congr
      (fun r _ => (hTab r).trans (rangeCond_closed u a b _ _ hab))] at hp
  · intro hba
    have hp := selectTransferRows_noOpt_perm ⟨some ⟨u, a, b⟩, none, [], ord, none⟩ s rfl
    rwa [List.filter_congr
      (fun r _ => (hTab r).trans (rangeCond_open u a b _ _ hba))] at hp

theorem range_semantics_witness :
    (selectEventRows ⟨some ⟨RangeUnit.Block, 10, 20⟩, [], OrderKind.ASC, none⟩
        sampleStore).Perm
      (sampleStore.events.filter (fun r =>
        decide (10 ≤ rowRangeField RangeUnit.Block r.blockNumber r.blockTime ∧
          rowRangeField RangeUnit.Block r.blockNumber r.blockTime ≤ 20))) ∧
    (selectEventRows ⟨some ⟨RangeUnit.Block, 3, 2⟩, [], OrderKind.ASC, none⟩
        sampleStore).Perm
      (sampleStore.events.filter (fun r =>
        decide (3 ≤ rowRangeField RangeUnit.Block r.blockNumber r.blockTime))) :=
  ⟨((range_semantics sampleStore RangeUnit.Block 10 20 OrderKind.ASC).2.2.2.1
      (by decide)),
   ((range_semantics sampleStore RangeUnit.Block 3 2 OrderKind.ASC).2.2.2.2.1
      (by decide))⟩

/-! ### C9: order and pagination -/

theorem sorted_paginate {α : Type} (R : α → α → Prop)
    (opts : Option FilterOptions) (l : List α) (h : List.Sorted R l) :
    List.Sorted R (paginate opts l) := by
  cases opts with
  | none => exact h
  | some o =>
    exact h.sublist
      (List.Sublist.trans (List.take_sublist o.limit _) (List.drop_sublist o.offset l))

theorem selectEventRows_sorted (f : EventFilter) (s : StoreState) :
    List.Sorted (keyOrder eventRowKey (decide (f.order = OrderKind.DESC)))
      (selectEventRows f s) :=
  sorted_paginate _ f.options _ (List.sorted_insertionSort _ _)

theorem selectTransferRows_sorted (f : TransferFilter) (s : StoreState) :
    List.Sorted (keyOrder transferRowKey (decide (f.order = OrderKind.DESC)))
      (selectTransferRows f s) :=
  sorted_paginate _ f.options _ (List.sorted_insertionSort _ _)

/-- C9: the records FilterEvents / FilterTransfers return are the decoded
selected rows, those rows are sorted by (block number, sequence index) in the
requested direction — and so are the decoded records under the same key —
and pagination Options{offset, limit} returns exactly the slice of the
unpaginated ordered result that skips `offset` records and keeps the next
`limit`. -/
theorem order_and_pagination (f : EventFilter) (g : TransferFilter)
    (s : StoreState) (off lim : Nat) :
    (FilterEvents noCancel (some f) s =
      Except.ok ((selectEventRows f s).map decodeEventRow)) ∧
    List.Sorted (keyOrder eventRowKey (decide (f.order = OrderKind.DESC)))
      (selectEventRows f s) ∧
    List.Sorted (keyOrder eventKey (decide (f.order = OrderKind.DESC)))
      ((selectEventRows f s).map decodeEventRow) ∧
    (selectEventRows { f with options := some ⟨off, lim⟩ } s =
      ((selectEventRows { f with options := none } s).drop off).take lim) ∧
    (FilterTransfers noCancel (some g) s =
      Except.ok ((selectTransferRows g s).map decodeTransferRow)) ∧
    List.Sorted (keyOrder transferRowKey (decide (g.order = OrderKind.DESC)))
      (selectTransferRows g s) ∧
    List.Sorted (keyOrder transferKey (decide (g.order = OrderKind.DESC)))
      ((selectTransferRows g s).map decodeTransferRow) ∧
    (selectTransferRows { g with options := some ⟨off, lim⟩ } s =
      ((selectTransferRows { g with options := none } s).drop off).take lim) := by
  refine ⟨filterEvents_ok f s, selectEventRows_sorted f s, ?_, ?_,
    filterTransfers_ok g s, selectTransferRows_sorted g s, ?_, ?_⟩
  · exact List.Pairwise.map decodeEventRow (fun a b hab => hab)
      (selectEventRows_sorted f s)
  · simp only [selectEventRows, paginate]
    rfl
  · exact List.Pairwise.map decodeTransferRow (fun a b hab => hab)
      (selectTransferRows_sorted g s)
  · simp only [selectTransferRows, paginate]
    rfl

/-! ### C10: the transfer TxID constraint -/

theorem mem_selectTransferRows (f : TransferFilter) (s : StoreState)
    (hopt : f.options = none) (r : TransferRow) :
    r ∈ selectTransferRows f s ↔ (r ∈ s.transfers ∧ transferWhere f r = true) := by
  unfold selectTransferRows
  rw [hopt]
  simp [paginate, List.mem_insertionSort, List.mem_filter]

/-- C10: a non-nil TxID on a TransferFilter restricts the result, as one more
conjunct next to the range constraint and the criteria-group disjunction, to
the transfers whose stored transaction id equals the given hash; removing the
TxID field (setting it nil) removes exactly that restriction. -/
theorem transfer_txid_restriction (f : TransferFilter) (hsh : Bytes32)
    (s : StoreState) (r : TransferRow) (hopt : f.options = none)
    (htx : f.txID = some hsh) :
    FilterTransfers noCancel (some f) s =
      Except.ok ((selectTransferRows f s).map decodeTransferRow) ∧
    (r ∈ selectTransferRows f s ↔
      (r ∈ selectTransferRows { f with txID := none } s ∧ r.txID = hsh.val)) := by
  refine ⟨filterTransfers_ok f s, ?_⟩
  have hpred : transferWhere f r = true ↔
      (transferWhere { f with txID := none } r = true ∧ r.txID = hsh.val) := by
    simp only [transferWhere, htx, optEq]
    simp only [Bool.and_eq_true, decide_eq_true_eq]
    tauto
  rw [mem_selectTransferRows f s hopt r,
    mem_selectTransferRows { f with txID := none } s (by simp [hopt]) r]
  constructor
  · rintro ⟨hm, hp⟩
    rcases hpred.mp hp with ⟨hp', hid⟩
    exact ⟨⟨hm, hp'⟩, hid⟩
  · rintro ⟨⟨hm, hp'⟩, hid⟩
    exact ⟨hm, hpred.mpr ⟨hp', hid⟩⟩

theorem transfer_txid_restriction_witness :
    FilterTransfers noCancel (some sampleTFilter) sampleStore =
      Except.ok ((selectTransferRows sampleTFilter sampleStore).map
        decodeTransferRow) ∧
    (sampleTransferRow ∈ selectTransferRows sampleTFilter sampleStore ↔
      (sampleTransferRow ∈
          selectTransferRows { sampleTFilter with txID := none } sampleStore ∧
        sampleTransferRow.txID = (b32 8).val)) :=
  transfer_txid_restriction sampleTFilter (b32 8) sampleStore sampleTransferRow
    rfl rfl

/-! ### C8: cancellation -/

/-- C8: the filter paths poll the cancellation signal once per row produced
(and once up front): with a signal that has fired persistently by instant k,
a call that still has a row to produce at or after instant k — in particular
any call whose context was cancelled before it began — returns the
cancellation error, distinct from the storage error, and no records. -/
theorem filter_cancellation (cancelled : Nat → Bool) (k : Nat)
    (f : Option EventFilter) (g : Option TransferFilter) (s : StoreState)
    (hpersist : ∀ j, k ≤ j → cancelled j = true) :
    (cancelled 0 = true →
      FilterEvents cancelled f s = Except.error LogErr.cancelled ∧
      FilterTransfers cancelled g s = Except.error LogErr.cancelled) ∧
    (k < (eventScanList f s).length →
      FilterEvents cancelled f s = Except.error LogErr.cancelled) ∧
    (k < (transferScanList g s).length →
      FilterTransfers cancelled g s = Except.error LogErr.cancelled) ∧
    LogErr.cancelled ≠ LogErr.storage := by
  have hFE : FilterEvents cancelled f s = queryEvents cancelled (eventScanList f s) := by
    cases f <;> rfl
  have hFT : FilterTransfers cancelled g s =
      queryTransfers cancelled (transferScanList g s) := by
    cases g <;> rfl
  refine ⟨?_, ?_, ?_, by decide⟩
  · intro h0
    rw [hFE, hFT]
    constructor <;> simp [queryEvents, queryTransfers, h0]
  · intro hk
    rw [hFE]
    by_cases h0 : cancelled 0 = true
    · simp [queryEvents, h0]
    · have := scanRows_cancelled decodeEventRow cancelled k hpersist
        (eventScanList f s) 0 (Nat.zero_le k) (by omega)
      simp [queryEvents, h0, this]
  · intro hk
    rw [hFT]
    by_cases h0 : cancelled 0 = true
    · simp [queryTransfers, h0]
    · have := scanRows_cancelled decodeTransferRow cancelled k hpersist
        (transferScanList g s) 0 (Nat.zero_le k) (by omega)
      simp [queryTransfers, h0, this]

theorem filter_cancellation_witness :
    FilterEvents cancelledAlways none sampleStore = Except.error LogErr.cancelled ∧
    FilterTransfers cancelledAlways none sampleStore = Except.error LogErr.cancelled ∧
    LogErr.cancelled ≠ LogErr.storage := by
  have happ := filter_cancellation cancelledAlways 0 none none sampleStore
    (fun j hj => rfl)
  exact ⟨happ.2.1 (by decide), happ.2.2.1 (by decide), happ.2.2.2⟩

/-! ### C1: the criteria/range conjunction -/

/-- C1 is violated by `FilterEvents`: with a Range and two criteria groups,
the SQL text `1 AND range AND ( 1 G1 ) OR ( 1 G2 )` parses by precedence as
`(range AND G1) OR G2`, so a record matching only the second group is
returned even though it lies outside the Range — here an event at height 5
under Range [10, 20].  `FilterTransfers` (doubled parentheses) conjoins
correctly and returns nothing on the analogous input. -/
theorem event_range_precedence_bug :
    FilterEvents noCancel (some cexFilter) cexStore =
      Except.ok [decodeEventRow sampleEventRow] ∧
    sampleEventRow.blockNumber < 10 ∧
    rangeCond cexFilter.range sampleEventRow.blockNumber
      sampleEventRow.blockTime = false ∧
    eventGroupCond critA sampleEventRow = false ∧
    eventGroupCond critB sampleEventRow = true ∧
    FilterTransfers noCancel (some tCexFilter) tCexStore = Except.ok [] := by
  exact ⟨rfl, by decide, rfl, rfl, rfl, rfl⟩

theorem genesis_exemption_witness :
    ((BlockBatch.Commit failsMarker (buildBatch hdr0 [sampleCall]) sampleStore).2).config
        = sampleStore.config ∧
    QueryLastBlockNumber
        (BlockBatch.Commit failsMarker (buildBatch hdr0 [sampleCall]) sampleStore).2
      = QueryLastBlockNumber sampleStore ∧
    BlockBatch.Commit noFail (buildBatch hdr0 [sampleCall]) sampleStore =
      (none,
       ⟨applyInsertEvents (buildBatch hdr0 [sampleCall]).events sampleStore.events,
         applyInsertTransfers (buildBatch hdr0 [sampleCall]).transfers
           sampleStore.transfers,
         sampleStore.config⟩) :=
  genesis_exemption failsMarker (buildBatch hdr0 [sampleCall]) sampleStore (by decide)

end Logdb
